import Mathlib

/-!
Shallow embedding of the logic layer of `src/main.py` (a Linux desktop-entry
installer): derivation of the installed executable name, generation and parsing
of `.desktop` entry files, icon extraction from AppImage bundles, and the
uninstall path.  Python strings are modelled as lists of characters; the
filesystem, where needed, as an association list from paths to file contents.
-/

namespace AppInstaller

/-- Python strings are modelled as lists of characters. -/
abbrev Str := List Char

/-- Model of Python `str.strip()` with no argument: drop whitespace from both
ends of the string.  Whitespace is modelled by `Char.isWhitespace` (space,
tab, carriage return, newline) — the characters that actually occur around
the lines this program reads and writes; Python additionally strips a few
rarer control and Unicode space characters, which no definition below
produces. -/
def pyStrip (s : Str) : Str :=
  (s.dropWhile Char.isWhitespace).rdropWhile Char.isWhitespace

/-- Model of Python `str.lower()` (ASCII case folding, which covers every string
the program manipulates). -/
def pyLower (s : Str) : Str := s.map Char.toLower

/-- Model of Python `str.replace(a, b)` for single-character arguments. -/
def pyReplaceChar (s : Str) (a b : Char) : Str :=
  s.map (fun c => if c = a then b else c)

/-- Model of Python `str.endswith(suf)`. -/
def pyEndsWith (s suf : Str) : Bool := List.isSuffixOf suf s

/-- Model of Python `str.startswith(p)`. -/
def pyStartsWith (s p : Str) : Bool := List.isPrefixOf p s

/-- Model of `os.path.basename` for the paths arising here: the part of the
path after the last slash. -/
def pyBasename (s : Str) : Str := (s.reverse.takeWhile (fun c => c != '/')).reverse

/-- Model of Python `s.split('.')[0]`: the part of the string before the first
dot (the whole string when there is no dot). -/
def beforeFirstDot (s : Str) : Str := s.takeWhile (fun c => c != '.')

/-- Model of `os.path.splitext(s)[0]` for a bare file name (no directory part):
everything before the last dot, except that a name whose characters before that
dot are all dots is returned whole. -/
def splitextRoot (s : Str) : Str :=
  let ext := s.reverse.takeWhile (fun c => c != '.')
  if ext.length = s.length then s
  else
    let root := s.take (s.length - ext.length - 1)
    if root.all (fun c => c == '.') then s else root

/-- Model of `os.path.join(a, b)`: an absolute second component replaces the
first, otherwise the two are joined with a slash. -/
def pyJoinPath (a b : Str) : Str :=
  if pyStartsWith b ['/'] then b else a ++ '/' :: b

/-- Model of Python `s.split(sep, 1)[0]` for `sep = '='`, assuming `'=' ∈ s`. -/
def beforeFirstEq (s : Str) : Str := s.takeWhile (fun c => c != '=')

/-- Model of Python `s.split(sep, 1)[1]` for `sep = '='`, assuming `'=' ∈ s`. -/
def afterFirstEq (s : Str) : Str := (s.dropWhile (fun c => c != '=')).drop 1

/-- Model of Python `str.split()` with no argument: split on whitespace,
discarding empty pieces. -/
def pySplitWS (s : Str) : List Str :=
  (s.splitOnP Char.isWhitespace).filter (fun t => !t.isEmpty)

/-! ## The desktop-file reader

`AppManagerGUI.show_app_details` (src/main.py lines 678-684) parses a desktop
file into a Python dict, line by line. -/

/-- The parsed mapping: an insertion-ordered association list, as a Python
dict. -/
abbrev Dict := List (Str × Str)

/-- Model of Python dict assignment `d[k] = v`: an existing key keeps its
position and receives the new value, a new key is appended at the end. -/
def dictSet (d : Dict) (k v : Str) : Dict :=
  if d.any (fun p => p.1 == k) then d.map (fun p => if p.1 == k then (k, v) else p)
  else d ++ [(k, v)]

/-- Lookup in the parsed mapping. -/
def dictGet (d : Dict) (k : Str) : Option Str :=
  (d.find? (fun p => p.1 == k)).map (fun p => p.2)

/-- Model of one iteration of the reader loop (src/main.py lines 680-684):
strip the line; when the stripped line contains `=` and does not start with
`#`, split it on the first `=` and store the pair; otherwise ignore it. -/
def processLine (d : Dict) (line : Str) : Dict :=
  let s := pyStrip line
  if s.elem '=' && !(pyStartsWith s ['#']) then
    dictSet d (beforeFirstEq s) (afterFirstEq s)
  else d

/-- Parse a list of lines as the desktop-file reader does. -/
def parseLines (ls : List Str) : Dict := ls.foldl processLine []

/-- Model of reading a desktop file: the text is split into lines at newline
characters (Python's file-line iteration, whose trailing newlines the `strip`
call removes anyway) and parsed line by line; the reader is a total function,
so no input raises. -/
def readFile (content : Str) : Dict := parseLines (content.splitOn '\n')

/-! ## The install request and the installer's derived names

`AppInstallThread.run` (src/main.py lines 92-188) receives the `app_data`
dictionary built in `AppManagerGUI.install_app`; empty strings model the unset
optional fields, exactly as in the source where the GUI hands over possibly
empty text-field contents. -/

/-- The install request (`app_data` in src/main.py lines 565-573). -/
structure AppData where
  executablePath : Str
  appName : Str
  iconPath : Str
  category : Str
  keywords : Str
  description : Str

/-- User-scope applications directory `~/.local/share/applications`
(src/main.py line 103), with the home directory modelled as `/home/user`. -/
def userAppDir : Str := "/home/user/.local/share/applications".data

/-- User-scope bin directory `~/.local/bin` (src/main.py line 104). -/
def userBinDir : Str := "/home/user/.local/bin".data

/-- User-scope icon directory (src/main.py line 105). -/
def userIconDir : Str := "/home/user/.local/share/icons/hicolor/256x256/apps".data

/-- System applications directory (src/main.py line 97). -/
def sysAppDir : Str := "/usr/share/applications".data

/-- Base name of the source executable, `exe_name` (src/main.py line 117). -/
def exeName (ad : AppData) : Str := pyBasename ad.executablePath

/-- Final executable name `new_exe_name` (src/main.py lines 118-123): a
supplied application name is slugified (lowercased, spaces to hyphens) and
`.appimage` is appended when the slug does not already end with it and the
source name ends with it — a case-sensitive `endswith` check; with no
application name the source file name is reused. -/
def newExeName (ad : AppData) : Str :=
  if ad.appName.isEmpty then exeName ad
  else
    let n := pyReplaceChar (pyLower ad.appName) ' ' '-'
    if !(pyEndsWith n ".appimage".data) && pyEndsWith (exeName ad) ".appimage".data
    then n ++ ".appimage".data else n

/-- Destination executable path `dest_exe_path` (src/main.py line 125). -/
def destExePath (ad : AppData) : Str := pyJoinPath userBinDir (newExeName ad)

/-- Icon file name used when an icon was supplied (src/main.py line 139). -/
def iconFileName (ad : AppData) : Str := beforeFirstDot (newExeName ad) ++ ".png".data

/-- The `icon_name` variable (src/main.py lines 138-147): empty when no icon
path was supplied. -/
def iconNameVar (ad : AppData) : Str :=
  if ad.iconPath.isEmpty then [] else iconFileName ad

/-- Destination icon path `dest_icon_path` (src/main.py line 140). -/
def destIconPath (ad : AppData) : Str := pyJoinPath userIconDir (iconFileName ad)

/-- Value written for the `Name` key (src/main.py line 152). -/
def nameValue (ad : AppData) : Str :=
  if ad.appName.isEmpty then splitextRoot (exeName ad) else ad.appName

/-- Value written for the `Categories` key (src/main.py line 155). -/
def categoriesValue (ad : AppData) : Str :=
  if ad.category.isEmpty then "Utility".data else ad.category

/-- Lines of the generated desktop file (src/main.py lines 150-165). -/
def desktopLines (ad : AppData) : List Str :=
  let base := ["[Desktop Entry]".data,
               "Name=".data ++ nameValue ad,
               "Exec=".data ++ destExePath ad,
               "Type=Application".data,
               "Categories=".data ++ categoriesValue ad]
  let withIcon := if (iconNameVar ad).isEmpty then base
                  else base ++ ["Icon=".data ++ splitextRoot (iconNameVar ad)]
  let withKw := if ad.keywords.isEmpty then withIcon
                else withIcon ++ ["Keywords=".data ++ ad.keywords]
  if ad.description.isEmpty then withKw
  else withKw ++ ["Comment=".data ++ ad.description]

/-- Desktop entry file path `desktop_file_path` (src/main.py line 167). -/
def desktopFilePath (ad : AppData) : Str :=
  pyJoinPath userAppDir (beforeFirstDot (newExeName ad) ++ ".desktop".data)

/-- Full text written to the desktop file (src/main.py lines 173-174 and
181-182): the lines joined with newline characters. -/
def desktopFileContent (ad : AppData) : Str :=
  ['\n'].intercalate (desktopLines ad)

/-! ## C1: derived executable name for "My Cool App" / "my-cool-app.AppImage" -/

/-- The install request of claim C1: application name `My Cool App`, source
executable `my-cool-app.AppImage`. -/
def adC1 : AppData :=
  ⟨"/tmp/my-cool-app.AppImage".data, "My Cool App".data, [], [], [], []⟩

/-- C1 counterexample: for application name "My Cool App" and source executable
"my-cool-app.AppImage", the code derives the final executable name
"my-cool-app" with no extension appended — not "my-cool-app.appimage" as the
claim states — because the `endswith('.appimage')` check on the source name
(src/main.py line 120) is case-sensitive and "my-cool-app.AppImage" fails it. -/
theorem c1_counterexample :
    newExeName adC1 = "my-cool-app".data ∧
    newExeName adC1 ≠ "my-cool-app.appimage".data := by
  decide

/-- C1 amended: the application name "My Cool App" is slugified to
"my-cool-app"; the bundle-extension check on the source name is case-sensitive,
so with source "my-cool-app.AppImage" nothing is appended and the final
executable name is "my-cool-app", while with the lowercase source
"my-cool-app.appimage" the final name is "my-cool-app.appimage". -/
theorem c1_amended :
    newExeName adC1 = "my-cool-app".data ∧
    newExeName { adC1 with
      executablePath := "/tmp/my-cool-app.appimage".data } =
      "my-cool-app.appimage".data := by
  decide

/-! ## C6: leniency and shape of the reader -/

/-- Setting a key always makes it readable with the written value: the
last-assigned value wins. -/
theorem dictGet_set_self (d : Dict) (k v : Str) : dictGet (dictSet d k v) k = some v := by
  unfold dictSet dictGet
  by_cases h : d.any (fun p => p.1 == k) = true
  · simp only [if_pos h]
    rw [List.find?_map]
    have hcomp : ((fun p : Str × Str => p.1 == k) ∘ fun p => if p.1 == k then (k, v) else p) =
        fun p : Str × Str => p.1 == k := by
      funext p
      by_cases hp : p.1 = k <;> simp [hp]
    rw [hcomp]
    obtain ⟨q, hqmem, hq⟩ := List.any_eq_true.mp h
    have hsome : (d.find? fun p => p.1 == k).isSome := List.find?_isSome.mpr ⟨q, hqmem, hq⟩
    obtain ⟨q0, hq0⟩ := Option.isSome_iff_exists.mp hsome
    have hq0k : q0.1 = k := by simpa using List.find?_some hq0
    rw [hq0]
    simp [hq0k]
  · simp only [if_neg h]
    rw [List.find?_append]
    have hnone : d.find? (fun p => p.1 == k) = none := by
      rw [List.find?_eq_none]
      intro x hx hpx
      exact h (List.any_eq_true.mpr ⟨x, hx, hpx⟩)
    simp [hnone]

/-- The line of the C6 counterexample: whitespace, then a comment. -/
def lineC6 : Str := "  #Name=x".data

/-- C6 counterexample: the line `  #Name=x` contains `=` and does not start
with `#` (it starts with a space), so the claim as stated says it is split at
the first `=` and retained in the mapping; the code strips the line first
(src/main.py line 681), sees the leading `#`, and ignores it, so the mapping
stays empty. -/
theorem c6_counterexample :
    readFile lineC6 = [] ∧ lineC6.elem '=' = true ∧ pyStartsWith lineC6 ['#'] = false := by
  decide

/-- C6 amended: `read` first strips each line of surrounding whitespace; a
stripped line containing `=` and not starting with `#` is split on the first
`=` into key and value, a duplicate key retains the last value seen (the
assignment overwrites), and every other line — in particular a malformed line
with no `=` — is silently ignored; the reader is a total function, so it never
fails on malformed lines. -/
theorem c6_amended (ls : List Str) (l : Str) (d : Dict) (k v : Str) :
    (parseLines (ls ++ [l]) =
      if (pyStrip l).elem '=' && !(pyStartsWith (pyStrip l) ['#']) then
        dictSet (parseLines ls) (beforeFirstEq (pyStrip l)) (afterFirstEq (pyStrip l))
      else parseLines ls) ∧
    dictGet (dictSet d k v) k = some v := by
  constructor
  · simp [parseLines, List.foldl_append, processLine]
  · exact dictGet_set_self d k v

/-- C6 amended, witnessed at a concrete input: a malformed line (no `=`) is
ignored, and a duplicate key keeps the last value. -/
theorem c6_amended_witness :
    parseLines (["Name=a".data, "malformed".data] ++ ["Name=b".data]) =
      dictSet (parseLines ["Name=a".data, "malformed".data]) "Name".data "b".data ∧
    dictGet (dictSet [("Name".data, "a".data)] "Name".data "b".data) "Name".data =
      some "b".data := by
  have h := c6_amended ["Name=a".data, "malformed".data] "Name=b".data
    [("Name".data, "a".data)] "Name".data "b".data
  constructor
  · have h1 := h.1
    rw [h1]
    decide
  · exact h.2

/-! ## C9: shape of the written entry file -/

/-- The `icon_name` variable is empty exactly when no icon path was supplied:
with an icon it is the executable's first-dot prefix followed by `.png`, which
is never the empty string. -/
theorem iconNameVar_isEmpty (ad : AppData) : (iconNameVar ad).isEmpty = ad.iconPath.isEmpty := by
  unfold iconNameVar
  by_cases hi : ad.iconPath.isEmpty = true
  · simp [hi]
  · simp only [hi, if_neg, Bool.not_eq_true, if_false, iconFileName]
    simp

/-- C9 confirmed: the written entry file is the line `[Desktop Entry]` followed
by one `Key=Value` line per key in the order Name, Exec, Type, Categories, then
Icon, Keywords, Comment — each of the last three present exactly when the
corresponding request field is non-empty — with every value spliced in verbatim
(plain string concatenation after `Key=`, no quoting or escaping), and
Categories defaulting to `Utility` when no category was supplied; the file text
is these lines joined with newlines. -/
theorem c9_entry_file_format (ad : AppData) :
    desktopLines ad =
      ["[Desktop Entry]".data,
       "Name=".data ++ nameValue ad,
       "Exec=".data ++ destExePath ad,
       "Type=Application".data,
       "Categories=".data ++ (if ad.category.isEmpty then "Utility".data else ad.category)]
      ++ (if ad.iconPath.isEmpty then [] else ["Icon=".data ++ splitextRoot (iconNameVar ad)])
      ++ (if ad.keywords.isEmpty then [] else ["Keywords=".data ++ ad.keywords])
      ++ (if ad.description.isEmpty then [] else ["Comment=".data ++ ad.description]) := by
  unfold desktopLines categoriesValue
  rw [iconNameVar_isEmpty] at *
  by_cases hi : ad.iconPath.isEmpty = true <;>
    by_cases hk : ad.keywords.isEmpty = true <;>
      by_cases hd : ad.description.isEmpty = true <;>
        simp [iconNameVar_isEmpty, hi, hk, hd]

/-! ## C5: naming of the entry file and installed icon -/

/-- A list containing `c` splits at the first occurrence of `c`. -/
theorem exists_first_occur {c : Char} {s : Str} (h : c ∈ s) :
    ∃ a b, s = a ++ c :: b ∧ c ∉ a := by
  induction s with
  | nil => cases h
  | cons x t ih =>
    by_cases hx : x = c
    · exact ⟨[], t, by simp [hx], by simp⟩
    · have ht : c ∈ t := by
        rcases List.mem_cons.mp h with h1 | h1
        · exact absurd h1.symm hx
        · exact h1
      obtain ⟨a, b, rfl, hna⟩ := ih ht
      refine ⟨x :: a, b, rfl, ?_⟩
      intro hmem
      rcases List.mem_cons.mp hmem with h1 | h1
      · exact hx h1.symm
      · exact hna h1

/-- The installer's first-dot prefix agrees with `os.path.splitext`'s root
exactly on names with at most one dot that do not start with a dot. -/
theorem beforeFirstDot_eq_splitextRoot {s : Str} (h1 : s.count '.' ≤ 1)
    (h2 : pyStartsWith s ['.'] = false) : beforeFirstDot s = splitextRoot s := by
  by_cases hm : '.' ∈ s
  · obtain ⟨a, b, rfl, hna⟩ := exists_first_occur hm
    have hpa : ∀ x ∈ a, (x != '.') = true := by
      intro x hx
      simp only [bne_iff_ne, ne_eq]
      exact fun hc => hna (hc ▸ hx)
    have hb : '.' ∉ b := by
      have ha0 : List.count '.' a = 0 := List.count_eq_zero.mpr hna
      rw [← List.count_eq_zero]
      simp only [List.count_append, List.count_cons_self, ha0] at h1 ⊢
      omega
    have hpb : ∀ x ∈ b.reverse, (x != '.') = true := by
      intro x hx
      simp only [bne_iff_ne, ne_eq]
      exact fun hc => hb (hc ▸ List.mem_reverse.mp hx)
    have ha : a ≠ [] := by
      intro h0
      rw [h0] at h2
      simp [pyStartsWith, List.isPrefixOf] at h2
    have hL : beforeFirstDot (a ++ '.' :: b) = a := by
      unfold beforeFirstDot
      rw [List.takeWhile_append_of_pos hpa]
      simp
    have hrev : (a ++ '.' :: b).reverse = b.reverse ++ '.' :: a.reverse := by
      simp
    have hext : (a ++ '.' :: b).reverse.takeWhile (fun c => c != '.') = b.reverse := by
      rw [hrev, List.takeWhile_append_of_pos hpb]
      simp
    have hlen : (a ++ '.' :: b).length = a.length + b.length + 1 := by
      simp
      omega
    have hR : splitextRoot (a ++ '.' :: b) = a := by
      unfold splitextRoot
      rw [hext]
      simp only [List.length_reverse, hlen]
      rw [if_neg (by omega)]
      have htake : (a ++ '.' :: b).take (a.length + b.length + 1 - b.length - 1) = a := by
        have : a.length + b.length + 1 - b.length - 1 = a.length := by omega
        rw [this, List.take_left]
      rw [htake]
      rw [if_neg ?_]
      intro hall
      rcases List.exists_mem_of_ne_nil a ha with ⟨x, hxa⟩
      have hxdot : x = '.' := by simpa using List.all_eq_true.mp hall x hxa
      exact hna (hxdot ▸ hxa)
    rw [hL, hR]
  · have hp : ∀ x ∈ s, (x != '.') = true := by
      intro x hx
      simp only [bne_iff_ne, ne_eq]
      exact fun hc => hm (hc ▸ hx)
    have hL : beforeFirstDot s = s := by
      unfold beforeFirstDot
      exact List.takeWhile_eq_self_iff.mpr hp
    have hR : splitextRoot s = s := by
      unfold splitextRoot
      have hrev : s.reverse.takeWhile (fun c => c != '.') = s.reverse := by
        refine List.takeWhile_eq_self_iff.mpr ?_
        intro x hx
        exact hp x (List.mem_reverse.mp hx)
      simp [hrev]
    rw [hL, hR]

/-- The install request of the C5 counterexample: no application name, source
executable `my.app.appimage` (two dots), an icon supplied. -/
def adC5 : AppData :=
  ⟨"/tmp/my.app.appimage".data, [], "/tmp/icon.png".data, [], [], []⟩

/-- C5 counterexample: for the executable name `my.app.appimage` the code names
the entry file `my.desktop` and the icon `my.png` — after the prefix before the
FIRST dot (src/main.py lines 139 and 167) — whereas the claim's "executable
name without its extension" is `my.app`, which would give `my.app.desktop`. -/
theorem c5_counterexample :
    desktopFilePath adC5 = userAppDir ++ '/' :: "my.desktop".data ∧
    destIconPath adC5 = userIconDir ++ '/' :: "my.png".data ∧
    splitextRoot (newExeName adC5) ++ ".desktop".data = "my.app.desktop".data ∧
    "my.desktop".data ≠ "my.app.desktop".data := by
  decide

/-- C5 amended: the entry file is written at a path named after the portion of
the executable name before its first `.` with the `.desktop` extension, and a
supplied icon is copied under that same portion with `.png`; this portion
coincides with the executable's base name (the name without its extension)
exactly when the executable name has at most one `.` and does not start with
`.` — for names with more than one `.` the first-dot prefix is used instead. -/
theorem c5_amended (ad : AppData) (h1 : (newExeName ad).count '.' ≤ 1)
    (h2 : pyStartsWith (newExeName ad) ['.'] = false) :
    desktopFilePath ad =
      pyJoinPath userAppDir (splitextRoot (newExeName ad) ++ ".desktop".data) ∧
    (ad.iconPath.isEmpty = false →
      destIconPath ad = pyJoinPath userIconDir (splitextRoot (newExeName ad) ++ ".png".data)) := by
  have hb := beforeFirstDot_eq_splitextRoot h1 h2
  constructor
  · unfold desktopFilePath
    rw [hb]
  · intro _
    unfold destIconPath iconFileName
    rw [hb]

/-- The request witnessing C5's amended statement: a single-dot executable name
with an icon supplied. -/
def adC5w : AppData :=
  ⟨"/tmp/tool.appimage".data, [], "/tmp/i.png".data, [], [], []⟩

/-- C5 amended, witnessed at a concrete single-dot request. -/
theorem c5_amended_witness :
    desktopFilePath adC5w =
      pyJoinPath userAppDir (splitextRoot (newExeName adC5w) ++ ".desktop".data) ∧
    destIconPath adC5w =
      pyJoinPath userIconDir (splitextRoot (newExeName adC5w) ++ ".png".data) :=
  ⟨(c5_amended adC5w (by decide) (by decide)).1,
   (c5_amended adC5w (by decide) (by decide)).2 (by decide)⟩

/-! ## The icon extractor

`IconExtractorThread.run` (src/main.py lines 23-78) extracts an AppImage into
a scratch directory and searches a fixed list of candidate locations for an
icon.  The extracted tree is modelled as a finite file tree; file contents are
byte lists. -/

/-- File contents, as a byte list. -/
abbrev Content := List Nat

mutual

/-- A node of the extracted file tree. -/
inductive FSNode where
  | file (content : Content)
  | dir (entries : EntryList)

/-- Directory entries in listing order (the order `os.walk` reports them). -/
inductive EntryList where
  | nil
  | cons (name : Str) (node : FSNode) (rest : EntryList)

end

/-- The extension test applied to each file name during the walk (src/main.py
line 55): `file.lower().endswith(('.png', '.svg', '.xpm'))` — a tuple
`endswith`, true when any of the three suffixes matches. -/
def matchIconName (nm : Str) : Bool :=
  pyEndsWith (pyLower nm) ".png".data || pyEndsWith (pyLower nm) ".svg".data ||
    pyEndsWith (pyLower nm) ".xpm".data

mutual

/-- The `os.walk` search of src/main.py lines 53-59: at each directory, scan
its files in listing order for a name passing the extension test, then descend
into its subdirectories in listing order; the first hit wins. -/
def findNode (base : Str) : FSNode → Option (Str × Content)
  | .file _ => none
  | .dir es =>
    match findFiles base es with
    | some r => some r
    | none => findDirs base es

/-- Scan the plain files of one directory level in listing order. -/
def findFiles (base : Str) : EntryList → Option (Str × Content)
  | .nil => none
  | .cons nm n rest =>
    match n with
    | .file c => if matchIconName nm then some (pyJoinPath base nm, c) else findFiles base rest
    | .dir _ => findFiles base rest

/-- Descend into the subdirectories of one directory level in listing order. -/
def findDirs (base : Str) : EntryList → Option (Str × Content)
  | .nil => none
  | .cons nm n rest =>
    match n with
    | .file _ => findDirs base rest
    | .dir _ =>
      match findNode (pyJoinPath base nm) n with
      | some r => some r
      | none => findDirs base rest

end

mutual

/-- All plain files below a node, as (name, full path, content) triples in the
order the walk of src/main.py visits them: each directory's own files first,
then its subdirectories recursively. -/
def entriesNode (base : Str) : FSNode → List (Str × Str × Content)
  | .file _ => []
  | .dir es => filesEnum base es ++ dirsEnum base es

/-- The (name, path, content) triples of one directory level's plain files. -/
def filesEnum (base : Str) : EntryList → List (Str × Str × Content)
  | .nil => []
  | .cons nm n rest =>
    match n with
    | .file c => (nm, pyJoinPath base nm, c) :: filesEnum base rest
    | .dir _ => filesEnum base rest

/-- The triples contributed by one directory level's subdirectories. -/
def dirsEnum (base : Str) : EntryList → List (Str × Str × Content)
  | .nil => []
  | .cons nm n rest =>
    match n with
    | .file _ => dirsEnum base rest
    | .dir _ => entriesNode (pyJoinPath base nm) n ++ dirsEnum base rest

end

mutual

/-- The walk returns exactly the first triple, in scan order, whose file name
passes the extension test. -/
theorem findNode_eq_scan (base : Str) (n : FSNode) :
    findNode base n =
      ((entriesNode base n).find? (fun e => matchIconName e.1)).map (fun e => e.2) := by
  match n with
  | .file _ => rfl
  | .dir es =>
    rw [findNode, entriesNode, List.find?_append]
    rw [findFiles_eq_scan base es, findDirs_eq_scan base es]
    cases (filesEnum base es).find? (fun e => matchIconName e.1) <;> simp

/-- File scan of one level returns the first matching file triple. -/
theorem findFiles_eq_scan (base : Str) (es : EntryList) :
    findFiles base es =
      ((filesEnum base es).find? (fun e => matchIconName e.1)).map (fun e => e.2) := by
  match es with
  | .nil => rfl
  | .cons nm n rest =>
    match n with
    | .file c =>
      rw [findFiles, filesEnum]
      by_cases hm : matchIconName nm = true
      · simp [hm]
      · rw [if_neg hm, List.find?_cons_of_neg _ (by simpa using hm)]
        exact findFiles_eq_scan base rest
    | .dir _ =>
      rw [findFiles, filesEnum]
      exact findFiles_eq_scan base rest

/-- Directory descent of one level returns the first match among the
subdirectories' triples in order. -/
theorem findDirs_eq_scan (base : Str) (es : EntryList) :
    findDirs base es =
      ((dirsEnum base es).find? (fun e => matchIconName e.1)).map (fun e => e.2) := by
  match es with
  | .nil => rfl
  | .cons nm n rest =>
    match n with
    | .file _ =>
      rw [findDirs, dirsEnum]
      exact findDirs_eq_scan base rest
    | .dir es2 =>
      rw [findDirs, dirsEnum, List.find?_append]
      rw [findNode_eq_scan (pyJoinPath base nm) (FSNode.dir es2), findDirs_eq_scan base rest]
      cases (entriesNode (pyJoinPath base nm) (FSNode.dir es2)).find?
        (fun e => matchIconName e.1) <;> simp

end

/-- The extracted `squashfs-root` tree, as the three candidate locations the
code probes (src/main.py lines 41-45); `none` models a missing path. -/
structure SquashRoot where
  dirIcon : Option FSNode
  icons : Option FSNode
  pixmaps : Option FSNode

/-- Search one candidate location (src/main.py lines 47-61): a plain file is a
direct hit, a directory is walked, a missing path is skipped. -/
def searchLoc (path : Str) (n : Option FSNode) : Option (Str × Content) :=
  match n with
  | none => none
  | some (.file c) => some (path, c)
  | some (.dir es) => findNode path (.dir es)

/-- The full candidate-location loop (src/main.py lines 41-61): `.DirIcon` at
the extraction root, then the recursive walk of `usr/share/icons`, then of
`usr/share/pixmaps`; the first hit wins. -/
def findIcon (tempDir : Str) (root : SquashRoot) : Option (Str × Content) :=
  let sq := pyJoinPath tempDir "squashfs-root".data
  match searchLoc (pyJoinPath sq ".DirIcon".data) root.dirIcon with
  | some r => some r
  | none =>
    match searchLoc (pyJoinPath sq "usr/share/icons".data) root.icons with
    | some r => some r
    | none => searchLoc (pyJoinPath sq "usr/share/pixmaps".data) root.pixmaps

/-- Outcome of the extractor thread: either a saved icon path with its bytes,
or an error message. -/
inductive IconResult where
  | found (path : Str) (content : Content)
  | errorMsg (msg : Str)
  deriving DecidableEq

/-- The extractor's result together with the number of external processes it
spawned. -/
structure ResolveOutcome where
  result : IconResult
  procsSpawned : Nat
  deriving DecidableEq

/-- Error message for non-AppImage inputs (src/main.py line 76). -/
def msgUnsupported : Str :=
  "Icon extraction is currently only supported for AppImage files".data

/-- Error message when no icon is found (src/main.py line 72). -/
def msgNoIcon : Str := "No icon found in the AppImage".data

/-- Error message prefix when the extraction subprocess fails (src/main.py
line 78 formats the caught exception after this text). -/
def msgExtractFailed : Str := "Error extracting icon".data

/-- Model of `IconExtractorThread.run` (src/main.py lines 23-78): the input is
recognized as an AppImage by a case-insensitive extension check; recognized
inputs spawn one extraction subprocess, whose result (the extracted tree, or
`none` on failure) is a parameter; the found icon is copied to the fixed name
`extracted_icon.png` inside the scratch directory. -/
def resolveIcon (filePath tempDir : Str) (extraction : Option SquashRoot) : ResolveOutcome :=
  if pyEndsWith (pyLower filePath) ".appimage".data then
    match extraction with
    | none => ⟨.errorMsg msgExtractFailed, 1⟩
    | some root =>
      match findIcon tempDir root with
      | some pc => ⟨.found (pyJoinPath tempDir "extracted_icon.png".data) pc.2, 1⟩
      | none => ⟨.errorMsg msgNoIcon, 1⟩
  else ⟨.errorMsg msgUnsupported, 0⟩

/-! ## C7: non-AppImage inputs -/

/-- C7 confirmed: an input path that fails the case-insensitive `.appimage`
extension check (src/main.py line 30) makes the extractor report the
unsupported-format error immediately, with zero external processes spawned. -/
theorem c7_unsupported_format (filePath tempDir : Str) (extraction : Option SquashRoot)
    (h : pyEndsWith (pyLower filePath) ".appimage".data = false) :
    resolveIcon filePath tempDir extraction = ⟨.errorMsg msgUnsupported, 0⟩ := by
  simp [resolveIcon, h]

/-- C7 witnessed at the concrete non-bundle input `/tmp/app.bin`. -/
theorem c7_unsupported_format_witness :
    pyEndsWith (pyLower "/tmp/app.bin".data) ".appimage".data = false ∧
    resolveIcon "/tmp/app.bin".data "/tmp/t".data none = ⟨.errorMsg msgUnsupported, 0⟩ :=
  ⟨by decide, c7_unsupported_format "/tmp/app.bin".data "/tmp/t".data none (by decide)⟩

/-! ## C2: which icon file wins the walk -/

/-- Icons directory of the C2 counterexample: an SVG listed before a PNG at the
same directory level. -/
def esC2 : EntryList :=
  .cons "a.svg".data (.file [1]) (.cons "b.png".data (.file [2]) .nil)

/-- The extracted tree of the C2 counterexample. -/
def rootC2 : SquashRoot := ⟨none, some (.dir esC2), none⟩

/-- C2 counterexample: with `a.svg` and `b.png` at the same level of the icons
subdirectory, the search returns the SVG, the first file in listing order —
not the PNG that the claim's extension priority (PNG before SVG) would pick.
The tuple in `endswith(('.png', '.svg', '.xpm'))` (src/main.py line 55) imposes
no priority. -/
theorem c2_counterexample :
    findIcon "/tmp/t".data rootC2 =
      some ("/tmp/t/squashfs-root/usr/share/icons/a.svg".data, [1]) ∧
    findIcon "/tmp/t".data rootC2 ≠
      some ("/tmp/t/squashfs-root/usr/share/icons/b.png".data, [2]) ∧
    pyEndsWith (pyLower "a.svg".data) ".png".data = false ∧
    pyEndsWith (pyLower "b.png".data) ".png".data = true := by
  refine ⟨?_, ?_, by decide, by decide⟩ <;> decide

/-- C2 amended: when the `.DirIcon` location is absent and the icons
subdirectory exists, the walk returns exactly the first file in recursive scan
order — each directory's files in listing order before its subdirectories —
whose lowercased name ends in `.png`, `.svg` or `.xpm`; the extension list
carries no priority, so among files at the same level the earlier one in
listing order wins regardless of format, and across depths the first one
discovered in scan order wins. -/
theorem c2_amended (tempDir : Str) (root : SquashRoot) (es : EntryList)
    (e : Str × Str × Content)
    (hdir : root.dirIcon = none)
    (hicons : root.icons = some (.dir es))
    (hfound : (entriesNode (pyJoinPath (pyJoinPath tempDir "squashfs-root".data)
        "usr/share/icons".data) (FSNode.dir es)).find? (fun t => matchIconName t.1) =
      some e) :
    findIcon tempDir root = some e.2 := by
  simp only [findIcon, searchLoc, hdir, hicons]
  rw [findNode_eq_scan, hfound]
  rfl

/-- Icons directory of the C2 witness: a subdirectory holding a deep PNG is
listed before a top-level XPM file. -/
def esC2w : EntryList :=
  .cons "sub".data (.dir (.cons "deep.png".data (.file [7]) .nil))
    (.cons "top.xpm".data (.file [9]) .nil)

/-- The extracted tree of the C2 witness. -/
def rootC2w : SquashRoot := ⟨none, some (.dir esC2w), none⟩

/-- C2 amended, witnessed: the top-level XPM is scanned before the PNG inside
the subdirectory (files of a directory come before its subdirectories in the
walk) and therefore wins. -/
theorem c2_amended_witness :
    findIcon "/tmp/t".data rootC2w =
      some ("/tmp/t/squashfs-root/usr/share/icons/top.xpm".data, [9]) :=
  c2_amended "/tmp/t".data rootC2w esC2w
    ("top.xpm".data, "/tmp/t/squashfs-root/usr/share/icons/top.xpm".data, [9])
    rfl rfl (by decide)

/-! ## C10: the saved icon's fixed name and copied bytes -/

/-- C10 confirmed: whenever the extractor succeeds, the reported path is the
fixed name `extracted_icon.png` inside the scratch directory and the saved
bytes are exactly the matched icon file's bytes (src/main.py lines 65-70) —
with no constraint that the matched file itself be a PNG. -/
theorem c10_fixed_saved_name (filePath tempDir : Str) (root : SquashRoot) (p : Str)
    (c : Content)
    (happ : pyEndsWith (pyLower filePath) ".appimage".data = true)
    (hfind : findIcon tempDir root = some (p, c)) :
    resolveIcon filePath tempDir (some root) =
      ⟨.found (pyJoinPath tempDir "extracted_icon.png".data) c, 1⟩ := by
  simp [resolveIcon, happ, hfind]

/-- The extracted tree of the C10 witness: the only icon is an SVG. -/
def rootC10 : SquashRoot :=
  ⟨none, some (.dir (.cons "logo.svg".data (.file [3, 4]) .nil)), none⟩

/-- C10 witnessed: the matched file is `logo.svg`, yet the returned path is
the scratch directory's `extracted_icon.png`, holding the SVG's bytes. -/
theorem c10_fixed_saved_name_witness :
    pyEndsWith (pyLower "/tmp/App.AppImage".data) ".appimage".data = true ∧
    resolveIcon "/tmp/App.AppImage".data "/tmp/t".data (some rootC10) =
      ⟨.found (pyJoinPath "/tmp/t".data "extracted_icon.png".data) [3, 4], 1⟩ :=
  ⟨by decide, c10_fixed_saved_name "/tmp/App.AppImage".data "/tmp/t".data rootC10
    "/tmp/t/squashfs-root/usr/share/icons/logo.svg".data [3, 4] (by decide) (by decide)⟩

/-! ## The uninstall path and the entry catalog

`AppManagerGUI.uninstall_app` (src/main.py lines 754-799) and
`AppManagerGUI.refresh_installed_apps` (lines 625-644).  The filesystem is an
association list from full paths to file contents (as lists of lines; contents
are irrelevant for non-entry files). -/

/-- The modelled filesystem. -/
abbrev FS := List (Str × List Str)

/-- Errors the uninstall path can raise. -/
inductive OSErr where
  | fileNotFound (p : Str)
  | permissionDenied (p : Str)
  | indexError
  deriving DecidableEq

/-- Lookup of a path in the filesystem. -/
def fsLookup (fs : FS) (p : Str) : Option (List Str) :=
  (fs.find? (fun e => e.1 == p)).map (fun e => e.2)

/-- Removal of a path from the filesystem. -/
def fsRemove (fs : FS) (p : Str) : FS := fs.filter (fun e => e.1 != p)

/-- Model of `os.remove`: a missing path raises `FileNotFoundError`; a path
under `/usr` raises `PermissionError` unless the caller holds elevated rights
(system locations are root-owned); otherwise the file is removed. -/
def osRemove (elevated : Bool) (fs : FS) (p : Str) : Except OSErr FS :=
  if (fsLookup fs p).isNone then .error (.fileNotFound p)
  else if pyStartsWith p "/usr".data && !elevated then .error (.permissionDenied p)
  else .ok (fsRemove fs p)

/-- The `Exec` scan of src/main.py lines 776-780: the first line starting with
`Exec=` (unstripped) is stripped, split on the first `=`, and its value split
on whitespace; taking element `[0]` of an empty split raises `IndexError`. -/
def findExecToken (ls : List Str) : Except OSErr (Option Str) :=
  match ls.find? (fun l => pyStartsWith l "Exec=".data) with
  | none => .ok none
  | some l =>
    match pySplitWS (afterFirstEq (pyStrip l)) with
    | [] => .error .indexError
    | t :: _ => .ok (some t)

/-- Model of `AppManagerGUI.uninstall_app` after confirmation (src/main.py
lines 768-799): the entry path is always resolved against the user
applications directory; the file is opened and scanned for the first `Exec=`
line; the entry file is removed; when the Exec token starts with the user bin
path the token's file is removed too.  A raised error aborts the remaining
steps but keeps earlier removals (the `except` branch only shows a message). -/
def uninstallApp (elevated : Bool) (fs : FS) (nameSel : Str) : FS × Option OSErr :=
  let path := pyJoinPath userAppDir nameSel
  match fsLookup fs path with
  | none => (fs, some (.fileNotFound path))
  | some ls =>
    match findExecToken ls with
    | .error e => (fs, some e)
    | .ok execOpt =>
      match osRemove elevated fs path with
      | .error e => (fs, some e)
      | .ok fs1 =>
        match execOpt with
        | none => (fs1, none)
        | some tok =>
          if pyStartsWith tok userBinDir then
            match osRemove elevated fs1 tok with
            | .error e => (fs1, some e)
            | .ok fs2 => (fs2, none)
          else (fs1, none)

/-- Names listed for a directory: the remainders of the filesystem paths that
extend `dir ++ "/"`.  (This may also report nested paths, which a real
`os.listdir` would not; the properties proved below are unaffected.) -/
def listDir (fs : FS) (dir : Str) : List Str :=
  fs.filterMap (fun e =>
    if pyStartsWith e.1 (dir ++ ['/']) then some (e.1.drop (dir.length + 1)) else none)

/-- Model of `AppManagerGUI.refresh_installed_apps` (src/main.py lines
631-644): the `.desktop` file names found under the user and the system
applications directories. -/
def listApps (fs : FS) : List Str :=
  (listDir fs userAppDir).filter (fun n => pyEndsWith n ".desktop".data) ++
    (listDir fs sysAppDir).filter (fun n => pyEndsWith n ".desktop".data)

/-- Whether an outcome is a permission error. -/
def isPermissionErr : Option OSErr → Bool
  | some (.permissionDenied _) => true
  | _ => false

/-- Removing one path does not change the lookup of a different path. -/
theorem find?_key_filter_ne (fs : FS) (p q : Str) (h : q ≠ p) :
    (fs.filter (fun e => e.1 != p)).find? (fun e => e.1 == q) =
      fs.find? (fun e => e.1 == q) := by
  induction fs with
  | nil => rfl
  | cons e t ih =>
    by_cases hq : e.1 = q
    · rw [List.filter_cons_of_pos (by simp [hq, h]),
        List.find?_cons_of_pos _ (by simp [hq]), List.find?_cons_of_pos _ (by simp [hq])]
    · by_cases hp : e.1 = p
      · rw [List.filter_cons_of_neg (by simp [hp]),
          List.find?_cons_of_neg _ (by simp [hq])]
        exact ih
      · rw [List.filter_cons_of_pos (by simp [hp]),
          List.find?_cons_of_neg _ (by simp [hq]), List.find?_cons_of_neg _ (by simp [hq])]
        exact ih

/-- Lookup version of `find?_key_filter_ne`. -/
theorem fsLookup_remove_ne (fs : FS) (p q : Str) (h : q ≠ p) :
    fsLookup (fsRemove fs p) q = fsLookup fs q := by
  unfold fsLookup fsRemove
  rw [find?_key_filter_ne fs p q h]

/-- A name listed for a directory comes from a filesystem entry at the joined
path. -/
theorem mem_listDir {fs : FS} {dir n : Str} (h : n ∈ listDir fs dir) :
    ∃ e ∈ fs, e.1 = dir ++ '/' :: n := by
  unfold listDir at h
  obtain ⟨e, he, hf⟩ := List.mem_filterMap.mp h
  by_cases hp : pyStartsWith e.1 (dir ++ ['/']) = true
  · rw [if_pos hp] at hf
    have hpre : (dir ++ ['/']) <+: e.1 := by
      have := hp
      unfold pyStartsWith at this
      exact List.isPrefixOf_iff_prefix.mp this
    obtain ⟨t, ht⟩ := hpre
    have hlen : (dir ++ ['/']).length = dir.length + 1 := by simp
    have hdrop : e.1.drop (dir.length + 1) = t := by
      rw [← ht, ← hlen, List.drop_left]
    have hn : n = t := by
      have := Option.some.inj hf
      rw [hdrop] at this
      exact this.symm
    refine ⟨e, he, ?_⟩
    rw [← ht, hn]
    simp
  · rw [if_neg hp] at hf
    cases hf

/-- A path absent from the filesystem is the key of none of its entries. -/
theorem not_mem_key_of_lookup_none {fs : FS} {k : Str} (h : fsLookup fs k = none) :
    ∀ e ∈ fs, e.1 ≠ k := by
  intro e he
  unfold fsLookup at h
  have hfind : fs.find? (fun e => e.1 == k) = none := by
    cases hcase : fs.find? (fun e => e.1 == k) with
    | none => rfl
    | some x => rw [hcase] at h; cases h
  have := List.find?_eq_none.mp hfind e he
  simpa using this

/-! ## C3: removing a System-scoped entry -/

/-- Filesystem of the C3 scenario: the entry exists only in the system
applications directory. -/
def fsC3 : FS :=
  [("/usr/share/applications/foo.desktop".data, ["Exec=/usr/local/bin/foo".data])]

/-- C3 counterexample: removing the System-scoped entry `foo.desktop` without
elevated rights fails with a FILE-NOT-FOUND error on the user-directory path —
not a permission error — because `uninstall_app` always joins the selected
name with the user applications directory (src/main.py lines 770-773); the
filesystem, in particular the system entry file, is untouched. -/
theorem c3_counterexample :
    (uninstallApp false fsC3 "foo.desktop".data).2 =
      some (OSErr.fileNotFound (pyJoinPath userAppDir "foo.desktop".data)) ∧
    isPermissionErr (uninstallApp false fsC3 "foo.desktop".data).2 = false ∧
    (uninstallApp false fsC3 "foo.desktop".data).1 = fsC3 := by
  decide

/-- C3 amended: removing a System-scoped entry (one whose entry file lives in
the system applications directory, with no identically named user entry) fails
regardless of elevation, but with a file-not-found error rather than a
permission error: the remove path resolves the entry name against the user
applications directory, never opens or deletes the system entry file, and
leaves the filesystem unchanged. -/
theorem c3_system_remove_not_found (elevated : Bool) (fs : FS) (nameSel : Str)
    (slines : List Str)
    (_hsys : fsLookup fs (pyJoinPath sysAppDir nameSel) = some slines)
    (huser : fsLookup fs (pyJoinPath userAppDir nameSel) = none) :
    uninstallApp elevated fs nameSel =
      (fs, some (OSErr.fileNotFound (pyJoinPath userAppDir nameSel))) := by
  simp only [uninstallApp, huser]

/-- C3 amended, witnessed on the concrete one-entry system filesystem. -/
theorem c3_system_remove_not_found_witness :
    uninstallApp false fsC3 "foo.desktop".data =
      (fsC3, some (OSErr.fileNotFound (pyJoinPath userAppDir "foo.desktop".data))) :=
  c3_system_remove_not_found false fsC3 "foo.desktop".data
    ["Exec=/usr/local/bin/foo".data] (by decide) (by decide)

/-! ## C8: removing a User-scoped entry -/

/-- Filesystem of the C8 counterexample: a user entry whose Exec token lies
OUTSIDE the user bin directory (`~/.local/bin-evil/tool`) while still sharing
the string prefix `~/.local/bin`, plus that token's file. -/
def fsC8 : FS :=
  [(userAppDir ++ '/' :: "foo.desktop".data,
    ["Exec=/home/user/.local/bin-evil/tool".data]),
   ("/home/user/.local/bin-evil/tool".data, [])]

/-- C8 counterexample: the Exec token `/home/user/.local/bin-evil/tool` lies
outside the user bin directory (it is not under `~/.local/bin/`), so the claim
says only the entry file is deleted; but the code's check is a plain string
`startswith` against `~/.local/bin` (src/main.py line 786), which this token
passes, and the resulting filesystem is empty — the outside file was deleted
too. -/
theorem c8_counterexample :
    pyStartsWith "/home/user/.local/bin-evil/tool".data (userBinDir ++ ['/']) = false ∧
    pyStartsWith "/home/user/.local/bin-evil/tool".data userBinDir = true ∧
    uninstallApp false fsC8 "foo.desktop".data = ([], none) := by
  decide

/-- C8 amended: for a User-scope entry whose `Exec` first token is a path
inside the user bin directory (under `~/.local/bin/`), remove deletes both the
entry file and that executable file, and a subsequent listing no longer
includes the entry; when the token does not even start with the string
`~/.local/bin`, only the entry file is deleted.  (The code's test is a string
prefix check, so paths outside the directory that merely share the prefix,
such as `~/.local/bin-evil/...`, are treated like bin-directory paths.) -/
theorem c8_amended (elevated : Bool) (fs : FS) (nameSel : Str) (ls : List Str)
    (tok : Str)
    (hslash : pyStartsWith nameSel ['/'] = false)
    (hentry : fsLookup fs (userAppDir ++ '/' :: nameSel) = some ls)
    (hexec : findExecToken ls = .ok (some tok)) :
    (pyStartsWith tok (userBinDir ++ ['/']) = true →
      tok ≠ userAppDir ++ '/' :: nameSel →
      (fsLookup fs tok).isSome = true →
      fsLookup fs (sysAppDir ++ '/' :: nameSel) = none →
      uninstallApp elevated fs nameSel =
        (fsRemove (fsRemove fs (userAppDir ++ '/' :: nameSel)) tok, none) ∧
      nameSel ∉ listApps (fsRemove (fsRemove fs (userAppDir ++ '/' :: nameSel)) tok)) ∧
    (pyStartsWith tok userBinDir = false →
      uninstallApp elevated fs nameSel =
        (fsRemove fs (userAppDir ++ '/' :: nameSel), none)) := by
  have hpath : pyJoinPath userAppDir nameSel = userAppDir ++ '/' :: nameSel := by
    simp [pyJoinPath, hslash]
  have hnotusrPath : pyStartsWith (userAppDir ++ '/' :: nameSel) "/usr".data = false := rfl
  have hosr : osRemove elevated fs (userAppDir ++ '/' :: nameSel) =
      .ok (fsRemove fs (userAppDir ++ '/' :: nameSel)) := by
    unfold osRemove
    rw [hentry, hnotusrPath]
    simp
  constructor
  · intro h4 h5 h6 h8
    have h4pre : (userBinDir ++ ['/']) <+: tok := List.isPrefixOf_iff_prefix.mp h4
    have h4' : pyStartsWith tok userBinDir = true :=
      List.isPrefixOf_iff_prefix.mpr ((List.prefix_append userBinDir ['/']).trans h4pre)
    obtain ⟨t, ht⟩ := h4pre
    have hnotusrTok : pyStartsWith tok "/usr".data = false := by
      rw [← ht]
      rfl
    have hlook1 : fsLookup (fsRemove fs (userAppDir ++ '/' :: nameSel)) tok =
        fsLookup fs tok := fsLookup_remove_ne fs _ tok h5
    have hosr2 : osRemove elevated (fsRemove fs (userAppDir ++ '/' :: nameSel)) tok =
        .ok (fsRemove (fsRemove fs (userAppDir ++ '/' :: nameSel)) tok) := by
      unfold osRemove
      rw [hlook1, hnotusrTok]
      cases hcase : fsLookup fs tok with
      | none => rw [hcase] at h6; cases h6
      | some _ => simp
    refine ⟨?_, ?_⟩
    · simp only [uninstallApp, hpath, hentry, hexec, hosr, hosr2, h4', if_true]
    · intro hmem
      rcases List.mem_append.mp hmem with hm | hm
      · have hm2 := (List.mem_filter.mp hm).1
        obtain ⟨e, he, hkey⟩ := mem_listDir hm2
        have hinner := List.mem_filter.mp (List.mem_filter.mp he).1
        have hpred : (e.1 != userAppDir ++ '/' :: nameSel) = true := hinner.2
        rw [hkey] at hpred
        simp at hpred
      · have hm2 := (List.mem_filter.mp hm).1
        obtain ⟨e, he, hkey⟩ := mem_listDir hm2
        have hinner := List.mem_filter.mp (List.mem_filter.mp he).1
        exact not_mem_key_of_lookup_none h8 e hinner.1 hkey
  · intro h4
    simp only [uninstallApp, hpath, hentry, hexec, hosr, h4]
    simp

/-- Filesystem of the C8 witness: a user entry whose Exec token lies inside
the user bin directory, plus that executable file. -/
def fsC8w : FS :=
  [(userAppDir ++ '/' :: "app.desktop".data,
    ["Exec=/home/user/.local/bin/app --flag".data]),
   (userBinDir ++ '/' :: "app".data, [])]

/-- C8 amended, witnessed: both files are deleted and the listing no longer
contains the entry. -/
theorem c8_amended_witness :
    uninstallApp false fsC8w "app.desktop".data =
      (fsRemove (fsRemove fsC8w (userAppDir ++ '/' :: "app.desktop".data))
        "/home/user/.local/bin/app".data, none) ∧
    "app.desktop".data ∉ listApps (fsRemove (fsRemove fsC8w
      (userAppDir ++ '/' :: "app.desktop".data)) "/home/user/.local/bin/app".data) :=
  (c8_amended false fsC8w "app.desktop".data
    ["Exec=/home/user/.local/bin/app --flag".data] "/home/user/.local/bin/app".data
    (by decide) (by decide) (by rfl)).1 (by decide) (by decide) (by decide) (by decide)

/-! ## C4: round-trip of a User-scope install through the reader

The helpers below characterize how the reader's per-line processing acts on a
well-formed `key=value` line produced by the writer. -/

/-- Appending to the left of a string with no trailing whitespace keeps it
free of trailing whitespace. -/
theorem rdropWhile_append_of_inv {p : Char → Bool} {u v : Str}
    (hv : v.rdropWhile p = v) (hne : v ≠ []) : (u ++ v).rdropWhile p = u ++ v := by
  rw [List.rdropWhile_eq_self_iff]
  intro h
  have hg : (u ++ v).getLast h = v.getLast hne := List.getLast_append' u v hne
  rw [hg]
  exact List.rdropWhile_eq_self_iff.mp hv hne

/-- Stripping a `key=value` line whose key has no leading whitespace and whose
value has no trailing whitespace leaves the line unchanged. -/
theorem pyStrip_kv (k v : Str) (hk : k.dropWhile Char.isWhitespace = k)
    (hv : v.rdropWhile Char.isWhitespace = v) :
    pyStrip (k ++ '=' :: v) = k ++ '=' :: v := by
  unfold pyStrip
  have h1 : (k ++ '=' :: v).dropWhile Char.isWhitespace = k ++ '=' :: v := by
    cases k with
    | nil =>
      rw [List.nil_append, List.dropWhile_cons_of_neg (by decide)]
    | cons c k2 =>
      have hc : ¬ Char.isWhitespace c = true := by
        intro hcc
        have hk2 := hk
        rw [List.dropWhile_cons_of_pos hcc] at hk2
        have hlen := congrArg List.length hk2
        have hsub : List.Sublist (List.dropWhile Char.isWhitespace k2) k2 :=
          List.dropWhile_sublist _
        have hle := hsub.length_le
        simp at hlen
        omega
      rw [List.cons_append, List.dropWhile_cons_of_neg hc]
  rw [h1]
  cases hv0 : v with
  | nil =>
    rw [List.rdropWhile_eq_self_iff]
    intro h
    have hg : (k ++ '=' :: ([] : Str)).getLast h = '=' := by
      have hga := List.getLast_append' k ['='] (by simp)
      simp only [List.getLast_singleton] at hga
      exact hga
    rw [hg]
    decide
  | cons c0 v2 =>
    rw [← hv0]
    have hassoc : k ++ '=' :: v = (k ++ ['=']) ++ v := by simp
    rw [hassoc]
    exact rdropWhile_append_of_inv hv (by rw [hv0]; exact List.cons_ne_nil _ _)

/-- The reader's processing of a well-formed `key=value` line is exactly the
dict assignment of that key and value. -/
theorem processLine_kv (d : Dict) (k v : Str)
    (hk : k.dropWhile Char.isWhitespace = k)
    (hk2 : pyStartsWith k ['#'] = false)
    (hk3 : '=' ∉ k)
    (hv : v.rdropWhile Char.isWhitespace = v) :
    processLine d (k ++ '=' :: v) = dictSet d k v := by
  have hstart : pyStartsWith (k ++ '=' :: v) ['#'] = false := by
    cases k with
    | nil => rfl
    | cons c k2 =>
      unfold pyStartsWith at hk2 ⊢
      rw [List.cons_append]
      simp only [List.isPrefixOf] at hk2 ⊢
      simpa using hk2
  have helem : (k ++ '=' :: v).elem '=' = true := by
    simp
  have hkey : beforeFirstEq (k ++ '=' :: v) = k := by
    unfold beforeFirstEq
    rw [List.takeWhile_append_of_pos (by
      intro x hx
      simp only [bne_iff_ne, ne_eq]
      exact fun he => hk3 (he ▸ hx))]
    simp
  have hval : afterFirstEq (k ++ '=' :: v) = v := by
    unfold afterFirstEq
    rw [List.dropWhile_append_of_pos (by
      intro x hx
      simp only [bne_iff_ne, ne_eq]
      exact fun he => hk3 (he ▸ hx))]
    simp
  simp only [processLine, pyStrip_kv k v hk hv, hstart, helem, hkey, hval,
    Bool.not_false, Bool.and_true, if_true]

/-- A line that fails the reader's test (no `=`, or a comment) is ignored. -/
theorem processLine_skip (d : Dict) (l : Str)
    (h : ((pyStrip l).elem '=' && !(pyStartsWith (pyStrip l) ['#'])) = false) :
    processLine d l = d := by
  simp only [processLine, h]
  simp

/-- Folding the reader over well-formed `key=value` lines with keys fresh for
the accumulator and mutually distinct appends the pairs in order. -/
theorem parse_kv_append (ps : List (Str × Str)) (acc : Dict)
    (hk : ∀ p ∈ ps, p.1.dropWhile Char.isWhitespace = p.1 ∧
      pyStartsWith p.1 ['#'] = false ∧ '=' ∉ p.1)
    (hv : ∀ p ∈ ps, p.2.rdropWhile Char.isWhitespace = p.2)
    (hfresh : ∀ p ∈ ps, ∀ q ∈ acc, q.1 ≠ p.1)
    (hnodup : (ps.map Prod.fst).Nodup) :
    (ps.map (fun p => p.1 ++ '=' :: p.2)).foldl processLine acc = acc ++ ps := by
  induction ps generalizing acc with
  | nil => simp
  | cons p ps ih =>
    rw [List.map_cons, List.foldl_cons,
      processLine_kv acc p.1 p.2 (hk p (by simp)).1 (hk p (by simp)).2.1
        (hk p (by simp)).2.2 (hv p (by simp))]
    have hany : acc.any (fun q => q.1 == p.1) = false := by
      rw [List.any_eq_false]
      intro q hq
      simpa using hfresh p (by simp) q hq
    have hset : dictSet acc p.1 p.2 = acc ++ [(p.1, p.2)] := by
      unfold dictSet
      rw [hany]
      simp
    rw [hset]
    have hnodup2 := hnodup
    rw [List.map_cons, List.nodup_cons] at hnodup2
    rw [ih (acc ++ [(p.1, p.2)])
      (fun q hq => hk q (by simp [hq]))
      (fun q hq => hv q (by simp [hq]))
      (by
        intro q hq r hr
        rcases List.mem_append.mp hr with hr1 | hr1
        · exact hfresh q (by simp [hq]) r hr1
        · have hrp : r = (p.1, p.2) := by simpa using hr1
          rw [hrp]
          intro hcontra
          exact hnodup2.1 (hcontra ▸ List.mem_map_of_mem Prod.fst hq))
      hnodup2.2]
    simp

/-- The key/value pairs the installer serializes, in writing order. -/
def desktopPairs (ad : AppData) : List (Str × Str) :=
  [("Name".data, nameValue ad),
   ("Exec".data, destExePath ad),
   ("Type".data, "Application".data),
   ("Categories".data, categoriesValue ad)]
  ++ (if ad.iconPath.isEmpty then [] else [("Icon".data, splitextRoot (iconNameVar ad))])
  ++ (if ad.keywords.isEmpty then [] else [("Keywords".data, ad.keywords)])
  ++ (if ad.description.isEmpty then [] else [("Comment".data, ad.description)])

/-- Membership in an if-guarded singleton forces the element. -/
theorem mem_if_singleton {α : Type} {c : Prop} [Decidable c] {x p : α}
    (h : p ∈ (if c then ([] : List α) else [x])) : p = x := by
  by_cases hc : c
  · rw [if_pos hc] at h
    cases h
  · rw [if_neg hc] at h
    simpa using h

/-- Enumeration of the possible serialized pairs, componentwise. -/
theorem mem_desktopPairs {ad : AppData} {p : Str × Str} (hp : p ∈ desktopPairs ad) :
    (p.1 = "Name".data ∧ p.2 = nameValue ad) ∨
    (p.1 = "Exec".data ∧ p.2 = destExePath ad) ∨
    (p.1 = "Type".data ∧ p.2 = "Application".data) ∨
    (p.1 = "Categories".data ∧ p.2 = categoriesValue ad) ∨
    (p.1 = "Icon".data ∧ p.2 = splitextRoot (iconNameVar ad)) ∨
    (p.1 = "Keywords".data ∧ p.2 = ad.keywords) ∨
    (p.1 = "Comment".data ∧ p.2 = ad.description) := by
  unfold desktopPairs at hp
  rcases List.mem_append.mp hp with h | h
  · rcases List.mem_append.mp h with h | h
    · rcases List.mem_append.mp h with h | h
      · simp only [List.mem_cons, List.mem_singleton, List.not_mem_nil, or_false] at h
        rcases h with h | h | h | h <;> rw [h] <;> simp
      · rw [mem_if_singleton h]
        simp
    · rw [mem_if_singleton h]
      simp
  · rw [mem_if_singleton h]
    simp

/-- The written lines are the header followed by the serialized pairs. -/
theorem desktopLines_eq_pairs (ad : AppData) :
    desktopLines ad =
      "[Desktop Entry]".data :: (desktopPairs ad).map (fun p => p.1 ++ '=' :: p.2) := by
  simp only [desktopLines, desktopPairs]
  rw [iconNameVar_isEmpty]
  by_cases hi : ad.iconPath.isEmpty = true <;> by_cases hk : ad.keywords.isEmpty = true <;>
    by_cases hd : ad.description.isEmpty = true <;>
      simp [hi, hk, hd]

/-- Appending `.png` to a nonempty dot-free name and taking the splitext root
recovers the name. -/
theorem splitextRoot_append_png {b : Str} (hb : b ≠ []) (hdot : '.' ∉ b) :
    splitextRoot (b ++ ".png".data) = b := by
  simp only [splitextRoot]
  have hpng : ".png".data = ['.', 'p', 'n', 'g'] := rfl
  have hrev : (b ++ ".png".data).reverse = 'g' :: 'n' :: 'p' :: '.' :: b.reverse := by
    rw [hpng]
    simp
  rw [hrev]
  have hext : List.takeWhile (fun c => c != '.') ('g' :: 'n' :: 'p' :: '.' :: b.reverse) =
      ['g', 'n', 'p'] := by
    simp [List.takeWhile_cons]
  rw [hext, show (['g', 'n', 'p'] : Str).length = 3 from rfl]
  have hlenb : (b ++ ".png".data).length = b.length + 4 := by
    rw [hpng]
    simp
  rw [hlenb, if_neg (by omega)]
  have harith : b.length + 4 - 3 - 1 = b.length := by omega
  rw [harith, List.take_left]
  rw [if_neg ?_]
  intro hall
  obtain ⟨x, hx⟩ := List.exists_mem_of_ne_nil b hb
  have hxdot : x = '.' := by simpa using List.all_eq_true.mp hall x hx
  exact hdot (hxdot ▸ hx)

/-- The derived executable name is nonempty whenever an application name was
supplied. -/
theorem newExeName_ne_nil {ad : AppData} (h : ad.appName ≠ []) : newExeName ad ≠ [] := by
  unfold newExeName
  have hie : ad.appName.isEmpty = false := by simpa [List.isEmpty_eq_false] using h
  simp only [hie, Bool.false_eq_true, if_false]
  have hnne : pyReplaceChar (pyLower ad.appName) ' ' '-' ≠ [] := by
    unfold pyReplaceChar pyLower
    simp [h]
  by_cases hc : (!(pyEndsWith (pyReplaceChar (pyLower ad.appName) ' ' '-') ".appimage".data) &&
      pyEndsWith (exeName ad) ".appimage".data) = true
  · rw [if_pos hc]
    exact List.append_ne_nil_of_right_ne_nil _ (by decide)
  · rw [if_neg hc]
    exact hnne

/-- The request of the C4 counterexample: a User-scope install with an icon
supplied. -/
def adC4 : AppData :=
  ⟨"/tmp/my-cool-app.appimage".data, "My Cool App".data, "/tmp/icon.svg".data,
    "Utility".data, [], []⟩

/-- C4 counterexample: reading back the entry file written for `adC4` yields an
`Icon` value of `my-cool-app` — the executable's first-dot prefix written at
src/main.py line 159 — and not the request's icon path `/tmp/icon.svg`, so the
claim's "each value equals the corresponding request field verbatim, except
Exec" fails at the `Icon` key. -/
theorem c4_counterexample :
    dictGet (readFile (desktopFileContent adC4)) "Icon".data = some "my-cool-app".data ∧
    adC4.iconPath = "/tmp/icon.svg".data ∧
    "my-cool-app".data ≠ "/tmp/icon.svg".data := by
  decide

/-- C4 amended: for a User-scope install request with a non-empty application
name, whose name, category, keywords and description — and whose derived
executable name and its first-dot prefix — contain no newline and no trailing
whitespace, and whose derived executable name does not start with a dot,
reading the produced entry file yields a mapping whose keys are exactly Name,
Exec, Type, Categories plus whichever of Icon, Keywords, Comment were
non-empty in the request; Name, Keywords and Comment hold the request fields
verbatim, Exec holds the destination executable path (not the source path),
Categories holds the request category (defaulting to Utility), and Icon holds
the derived executable name's prefix before its first dot — not the request's
icon path. -/
theorem c4_roundtrip (ad : AppData)
    (hname : ad.appName ≠ [])
    (hnl_name : '\n' ∉ ad.appName)
    (hnl_exe : '\n' ∉ newExeName ad)
    (hnl_cat : '\n' ∉ ad.category)
    (hnl_kw : '\n' ∉ ad.keywords)
    (hnl_desc : '\n' ∉ ad.description)
    (hrs_name : ad.appName.rdropWhile Char.isWhitespace = ad.appName)
    (hrs_exe : (newExeName ad).rdropWhile Char.isWhitespace = newExeName ad)
    (hrs_cat : ad.category.rdropWhile Char.isWhitespace = ad.category)
    (hrs_icon : (beforeFirstDot (newExeName ad)).rdropWhile Char.isWhitespace =
      beforeFirstDot (newExeName ad))
    (hrs_kw : ad.keywords.rdropWhile Char.isWhitespace = ad.keywords)
    (hrs_desc : ad.description.rdropWhile Char.isWhitespace = ad.description)
    (hbase : beforeFirstDot (newExeName ad) ≠ []) :
    readFile (desktopFileContent ad) =
      [("Name".data, ad.appName),
       ("Exec".data, destExePath ad),
       ("Type".data, "Application".data),
       ("Categories".data, if ad.category.isEmpty then "Utility".data else ad.category)]
      ++ (if ad.iconPath.isEmpty then []
          else [("Icon".data, beforeFirstDot (newExeName ad))])
      ++ (if ad.keywords.isEmpty then [] else [("Keywords".data, ad.keywords)])
      ++ (if ad.description.isEmpty then [] else [("Comment".data, ad.description)]) := by
  have hnvals : nameValue ad = ad.appName := by
    have hie : ad.appName.isEmpty = false := by simpa [List.isEmpty_eq_false] using hname
    simp [nameValue, hie]
  have hnne : newExeName ad ≠ [] := newExeName_ne_nil hname
  have hnl_dest : '\n' ∉ destExePath ad := by
    unfold destExePath pyJoinPath
    by_cases hs : pyStartsWith (newExeName ad) ['/'] = true
    · simpa [hs] using hnl_exe
    · simp only [hs, Bool.false_eq_true, if_false]
      intro hmem
      rcases List.mem_append.mp hmem with h | h
      · exact absurd h (by decide)
      · rcases List.mem_cons.mp h with h | h
        · exact absurd h (by decide)
        · exact hnl_exe h
  have hrs_dest : (destExePath ad).rdropWhile Char.isWhitespace = destExePath ad := by
    unfold destExePath pyJoinPath
    by_cases hs : pyStartsWith (newExeName ad) ['/'] = true
    · simpa [hs] using hrs_exe
    · simp only [hs, Bool.false_eq_true, if_false]
      have hassoc : userBinDir ++ '/' :: newExeName ad =
          (userBinDir ++ ['/']) ++ newExeName ad := by simp
      rw [hassoc]
      exact rdropWhile_append_of_inv hrs_exe hnne
  have hnl_catval : '\n' ∉ categoriesValue ad := by
    unfold categoriesValue
    by_cases hc : ad.category.isEmpty = true
    · rw [if_pos hc]
      decide
    · rw [if_neg hc]
      exact hnl_cat
  have hrs_catval : (categoriesValue ad).rdropWhile Char.isWhitespace =
      categoriesValue ad := by
    unfold categoriesValue
    by_cases hc : ad.category.isEmpty = true
    · rw [if_pos hc]
      decide
    · rw [if_neg hc]
      exact hrs_cat
  have hdotfree : '.' ∉ beforeFirstDot (newExeName ad) := by
    intro hm
    have := List.mem_takeWhile_imp hm
    simp at this
  have hiconval : ad.iconPath.isEmpty = false →
      splitextRoot (iconNameVar ad) = beforeFirstDot (newExeName ad) := by
    intro hi
    unfold iconNameVar
    simp only [hi, Bool.false_eq_true, if_false]
    unfold iconFileName
    exact splitextRoot_append_png hbase hdotfree
  have hnl_base : '\n' ∉ beforeFirstDot (newExeName ad) :=
    fun hm => hnl_exe ((List.takeWhile_sublist _).subset hm)
  have hnl_iconval : '\n' ∉ splitextRoot (iconNameVar ad) := by
    by_cases hi : ad.iconPath.isEmpty = true
    · unfold iconNameVar
      rw [if_pos hi]
      decide
    · rw [hiconval (by simpa using hi)]
      exact hnl_base
  have hrs_iconval : (splitextRoot (iconNameVar ad)).rdropWhile Char.isWhitespace =
      splitextRoot (iconNameVar ad) := by
    by_cases hi : ad.iconPath.isEmpty = true
    · unfold iconNameVar
      rw [if_pos hi]
      decide
    · rw [hiconval (by simpa using hi)]
      exact hrs_icon
  have hlines := desktopLines_eq_pairs ad
  have hnl_lines : ∀ l ∈ desktopLines ad, '\n' ∉ l := by
    rw [hlines]
    intro l hl
    rcases List.mem_cons.mp hl with hl1 | hl1
    · rw [hl1]
      decide
    · obtain ⟨p, hp, hpl⟩ := List.mem_map.mp hl1
      rw [← hpl]
      have hpv : '\n' ∉ p.1 ∧ '\n' ∉ p.2 := by
        rcases mem_desktopPairs hp with ⟨h1, h2⟩ | ⟨h1, h2⟩ | ⟨h1, h2⟩ | ⟨h1, h2⟩ |
          ⟨h1, h2⟩ | ⟨h1, h2⟩ | ⟨h1, h2⟩
        · exact ⟨by rw [h1]; decide, by rw [h2, hnvals]; exact hnl_name⟩
        · exact ⟨by rw [h1]; decide, by rw [h2]; exact hnl_dest⟩
        · exact ⟨by rw [h1]; decide, by rw [h2]; decide⟩
        · exact ⟨by rw [h1]; decide, by rw [h2]; exact hnl_catval⟩
        · exact ⟨by rw [h1]; decide, by rw [h2]; exact hnl_iconval⟩
        · exact ⟨by rw [h1]; decide, by rw [h2]; exact hnl_kw⟩
        · exact ⟨by rw [h1]; decide, by rw [h2]; exact hnl_desc⟩
      intro hmem
      rcases List.mem_append.mp hmem with h | h
      · exact hpv.1 h
      · rcases List.mem_cons.mp h with h | h
        · exact absurd h (by decide)
        · exact hpv.2 h
  have hkeys : ∀ p ∈ desktopPairs ad, p.1.dropWhile Char.isWhitespace = p.1 ∧
      pyStartsWith p.1 ['#'] = false ∧ '=' ∉ p.1 := by
    intro p hp
    rcases mem_desktopPairs hp with ⟨h1, _⟩ | ⟨h1, _⟩ | ⟨h1, _⟩ | ⟨h1, _⟩ |
      ⟨h1, _⟩ | ⟨h1, _⟩ | ⟨h1, _⟩ <;> rw [h1] <;> exact ⟨by decide, by decide, by decide⟩
  have hvs : ∀ p ∈ desktopPairs ad, p.2.rdropWhile Char.isWhitespace = p.2 := by
    intro p hp
    rcases mem_desktopPairs hp with ⟨_, h2⟩ | ⟨_, h2⟩ | ⟨_, h2⟩ | ⟨_, h2⟩ |
      ⟨_, h2⟩ | ⟨_, h2⟩ | ⟨_, h2⟩ <;> rw [h2]
    · rw [hnvals]
      exact hrs_name
    · exact hrs_dest
    · decide
    · exact hrs_catval
    · exact hrs_iconval
    · exact hrs_kw
    · exact hrs_desc
  have hnodup : ((desktopPairs ad).map Prod.fst).Nodup := by
    unfold desktopPairs
    by_cases hi : ad.iconPath.isEmpty = true <;> by_cases hk : ad.keywords.isEmpty = true <;>
      by_cases hd : ad.description.isEmpty = true <;> simp [hi, hk, hd]
  have hsplit : (desktopFileContent ad).splitOn '\n' = desktopLines ad := by
    unfold desktopFileContent
    exact List.splitOn_intercalate (desktopLines ad) '\n' hnl_lines
      (by rw [hlines]; exact List.cons_ne_nil _ _)
  unfold readFile
  rw [hsplit, hlines]
  simp only [parseLines]
  rw [List.foldl_cons, processLine_skip ([] : Dict) ("[Desktop Entry]".data) (by decide)]
  rw [parse_kv_append (desktopPairs ad) [] hkeys hvs (by simp) hnodup]
  simp only [List.nil_append]
  unfold desktopPairs categoriesValue
  rw [hnvals]
  by_cases hi : ad.iconPath.isEmpty = true
  · simp [hi]
  · have hiv := hiconval (by simpa using hi)
    simp [hi, hiv]

/-- C4 amended, witnessed at the concrete request `adC4` (non-empty name,
icon supplied, no keywords or description). -/
theorem c4_roundtrip_witness :
    readFile (desktopFileContent adC4) =
      [("Name".data, adC4.appName),
       ("Exec".data, destExePath adC4),
       ("Type".data, "Application".data),
       ("Categories".data,
        if adC4.category.isEmpty then "Utility".data else adC4.category)]
      ++ (if adC4.iconPath.isEmpty then []
          else [("Icon".data, beforeFirstDot (newExeName adC4))])
      ++ (if adC4.keywords.isEmpty then [] else [("Keywords".data, adC4.keywords)])
      ++ (if adC4.description.isEmpty then []
          else [("Comment".data, adC4.description)]) :=
  c4_roundtrip adC4 (by decide) (by decide) (by decide) (by decide) (by decide)
    (by decide) (by decide) (by decide) (by decide) (by decide) (by decide)
    (by decide) (by decide)

end AppInstaller
